import Mathlib

/-!
Shallow embedding of the markdown documentation renderer
(`src/starlark/src/docs/markdown.rs`) and the type-shape extraction helpers
(`src/starlark/src/typing/macro_support.rs`) of the starlark repository,
together with proofs about the rendering and extraction behaviour.

Types and functions that the two source files use but whose definitions live
outside the provided sources (`Ty`, `TyBasic`, the `DocParams` accessors and
`render_code`) are modelled from the specification; each such definition is
marked `Modelled from the spec:` in its doc comment.
-/

/-- Modelled from the spec: a structural variant of a type union (`TyBasic` in
the source, not under `src/`): sequence-like (`Tuple`, carrying its element
union), mapping-like (`Dict`, carrying key and value unions), the
unconstrained `Any`, or some other named shape.  A union (`Ty`) is the ordered
list of its variants. -/
inductive TyBasic : Type where
  | any : TyBasic
  | name : String → TyBasic
  | tuple : List TyBasic → TyBasic
  | dict : List TyBasic → List TyBasic → TyBasic

mutual

/-- Boolean equality on type variants (structural). -/
def TyBasic.beq : TyBasic → TyBasic → Bool
  | TyBasic.any, TyBasic.any => true
  | TyBasic.name a, TyBasic.name b => a == b
  | TyBasic.tuple a, TyBasic.tuple b => TyBasic.beqList a b
  | TyBasic.dict k v, TyBasic.dict k2 v2 => TyBasic.beqList k k2 && TyBasic.beqList v v2
  | _, _ => false

/-- Boolean equality on variant lists (structural). -/
def TyBasic.beqList : List TyBasic → List TyBasic → Bool
  | [], [] => true
  | a :: rest1, b :: rest2 => TyBasic.beq a b && TyBasic.beqList rest1 rest2
  | _, _ => false

end

mutual

theorem TyBasic.beq_iff : ∀ a b : TyBasic, TyBasic.beq a b = true ↔ a = b
  | TyBasic.any, b => by cases b <;> simp [TyBasic.beq]
  | TyBasic.name s, b => by cases b <;> simp [TyBasic.beq]
  | TyBasic.tuple item, b => by
    cases b <;> simp [TyBasic.beq]
    exact TyBasic.beqList_iff item _
  | TyBasic.dict k v, b => by
    cases b with
    | dict k2 v2 =>
      simp [TyBasic.beq, Bool.and_eq_true, TyBasic.beqList_iff k k2, TyBasic.beqList_iff v v2]
    | _ => simp [TyBasic.beq]

theorem TyBasic.beqList_iff : ∀ a b : List TyBasic, TyBasic.beqList a b = true ↔ a = b
  | [], b => by cases b <;> simp [TyBasic.beqList]
  | a :: rest1, [] => by simp [TyBasic.beqList]
  | a :: rest1, b :: rest2 => by
    simp [TyBasic.beqList, Bool.and_eq_true, TyBasic.beq_iff a b, TyBasic.beqList_iff rest1 rest2]

end

instance : DecidableEq TyBasic :=
  fun a b => decidable_of_iff (TyBasic.beq a b = true) (TyBasic.beq_iff a b)

/-- A type union: the ordered list of its structural variants. -/
abbrev Ty : Type := List TyBasic

/-- Modelled from the spec: `Ty::any()`, the unconstrained/any type. -/
def Ty.anyTy : Ty := [TyBasic.any]

/-- Modelled from the spec: the "is unconstrained/any" predicate on a type
(`Ty::is_any` in the source, not under `src/`). -/
def Ty.is_any : Ty → Bool
  | [TyBasic.any] => true
  | _ => false

/-- Modelled from the spec: `Ty::iter_union`, the ordered list of structural
variants of a union. -/
def Ty.iter_union (ty : Ty) : List TyBasic := ty

mutual

/-- Modelled from the spec: the canonical text rendering of one variant. -/
def TyBasic.display : TyBasic → String
  | TyBasic.any => "typing.Any"
  | TyBasic.name s => s
  | TyBasic.tuple item => "tuple[" ++ Ty.displayList item ++ ", ...]"
  | TyBasic.dict k v => "dict[" ++ Ty.displayList k ++ ", " ++ Ty.displayList v ++ "]"

/-- Modelled from the spec: text of a variant list, alternatives joined by a bar. -/
def Ty.displayList : List TyBasic → String
  | [] => "typing.Never"
  | [b] => TyBasic.display b
  | b :: rest => TyBasic.display b ++ " | " ++ Ty.displayList rest

end

/-- Modelled from the spec: the canonical text rendering of a type union. -/
def Ty.display (t : Ty) : String := Ty.displayList t

/-- Order-stable deduplication: keeps the first occurrence of each element.
`seen` accumulates the elements already emitted. -/
def dedupFirstAux [DecidableEq α] (seen : List α) : List α → List α
  | [] => []
  | a :: rest =>
    if a ∈ seen then dedupFirstAux seen rest
    else a :: dedupFirstAux (seen ++ [a]) rest

/-- Modelled from the spec: `Ty::unions` (not under `src/`) — the
deduplicated, order-stable union of the given contributions, implemented as a
fold over the concatenated variant lists. -/
def Ty.unions (ts : List Ty) : Ty := dedupFirstAux [] (ts.flatMap id)

/-- Embedding of `unpack_args_item_ty` from `src/starlark/src/typing/macro_support.rs`:
maps every sequence-like (`Tuple`) variant to its element type and every other
variant to `Any`, then unions the contributions. -/
def unpack_args_item_ty (ty : Ty) : Ty :=
  Ty.unions ((Ty.iter_union ty).map fun b =>
    match b with
    | TyBasic.tuple item => item
    | _ => Ty.anyTy)

/-- Embedding of `unpack_kwargs_value_ty` from `src/starlark/src/typing/macro_support.rs`:
maps every mapping-like (`Dict`) variant to its value type and every other
variant to `Any`, then unions the contributions. -/
def unpack_kwargs_value_ty (ty : Ty) : Ty :=
  Ty.unions ((Ty.iter_union ty).map fun b =>
    match b with
    | TyBasic.dict _ value => value
    | _ => Ty.anyTy)

/-- Structure `DocString`: summary plus optional details prose. -/
structure DocString where
  summary : String
  details : Option String
deriving DecidableEq

/-- Modelled from the spec: the kind of a parameter (positional, keyword,
positional-or-keyword, `*args`, `**kwargs`). -/
inductive ParamKind : Type where
  | positional : ParamKind
  | keyword : ParamKind
  | posOrNamed : ParamKind
  | args : ParamKind
  | kwargs : ParamKind
deriving DecidableEq

/-- Structure `DocParam`: one parameter with its kind, optional docs and type. -/
structure DocParam where
  name : String
  kind : ParamKind
  docs : Option DocString
  typ : Ty
deriving DecidableEq

/-- Structure `DocReturn`: return type and optional docs. -/
structure DocReturn where
  docs : Option DocString
  typ : Ty
deriving DecidableEq

/-- Structure `DocFunction`: parameter list (modelled from the spec as the ordered
sequence of parameters), return spec and optional docs. -/
structure DocFunction where
  params : List DocParam
  ret : DocReturn
  docs : Option DocString
deriving DecidableEq

/-- Structure `DocProperty`: optional docs and a type. -/
structure DocProperty where
  docs : Option DocString
  typ : Ty
deriving DecidableEq

/-- Structure `DocMember`: a function or a property. -/
inductive DocMember : Type where
  | function : DocFunction → DocMember
  | property : DocProperty → DocMember
deriving DecidableEq

/-- Structure `DocType`: a composite type with docs, an optional constructor and named
members. -/
structure DocType where
  docs : Option DocString
  ctor : Option DocFunction
  members : List (String × DocMember)
deriving DecidableEq

/-- Modelled from the spec: `DocParams::doc_params` (not under `src/`) —
iterates over all parameters of the function, in signature order; per the
source doc comment on `MAX_ARGS_BEFORE_MULTILINE` ("Any functions with more
parameters than this…") this is the full parameter list, not only the
documented parameters. -/
def doc_params (ps : List DocParam) : List DocParam := ps

/-- Modelled from the spec: the display name of a parameter carries a `*`
marker for `*args` and a `**` marker for `**kwargs`, and is bare otherwise. -/
def starred_name_of (p : DocParam) : String :=
  match p.kind with
  | ParamKind.args => "*" ++ p.name
  | ParamKind.kwargs => "**" ++ p.name
  | _ => p.name

/-- Modelled from the spec: `DocParams::doc_params_with_starred_names` (not
under `src/`) — all parameters paired with their starred display names. -/
def doc_params_with_starred_names (ps : List DocParam) : List (String × DocParam) :=
  ps.map fun p => (starred_name_of p, p)

/-- Modelled from the spec: the code rendering of one parameter — its starred
name, followed by `: typeText` only when its type is constrained. -/
def render_param_code (p : DocParam) : String :=
  starred_name_of p ++ (if Ty.is_any p.typ then "" else ": " ++ Ty.display p.typ)

/-- Modelled from the spec: `DocParams::render_code` (not under `src/`) —
with no indent, parameters are comma-joined on one line; with an indent, each
parameter sits on its own indented line ending in a comma. -/
def render_code (ps : List DocParam) (indent : Option String) : String :=
  match indent with
  | none => String.intercalate ", " (ps.map render_param_code)
  | some ind => String.join (ps.map fun p => ind ++ render_param_code p ++ ",\n")

/-- Enumeration `DSOpts`: what to render from a `DocString`. -/
inductive DSOpts : Type where
  | Summary : DSOpts
  | Details : DSOpts
  | Combined : DSOpts

/-- Embedding of `render_doc_string` from `src/starlark/src/docs/markdown.rs`. -/
def render_doc_string (opts : DSOpts) (string : Option DocString) : Option String :=
  string.bind fun d =>
    match opts with
    | DSOpts.Summary => some d.summary
    | DSOpts.Details => d.details
    | DSOpts.Combined =>
      some (match d.details with
        | some details => d.summary ++ "\n\n" ++ details
        | none => d.summary)

/-- Embedding of `escape_name` from `src/starlark/src/docs/markdown.rs`:
`name.replace('_', "\\_")`, expressed character by character. -/
def escape_name (name : String) : String :=
  String.mk (name.data.flatMap fun c => if c = '_' then ['\\', '_'] else [c])

/-- Embedding of `render_code_block` from `src/starlark/src/docs/markdown.rs`. -/
def render_code_block (contents : String) : String :=
  "```python\n" ++ contents ++ "\n```"

/-- Embedding of `render_property` from `src/starlark/src/docs/markdown.rs`. -/
def render_property (name : String) (property : DocProperty) : String :=
  let prototype := render_code_block (name ++ ": " ++ Ty.display property.typ)
  let header := "## " ++ escape_name name ++ "\n\n" ++ prototype
  let summary := render_doc_string DSOpts.Summary property.docs
  let details := render_doc_string DSOpts.Details property.docs
  let body := header
  let body :=
    match summary with
    | some s => body ++ "\n\n" ++ s
    | none => body
  let body :=
    match details with
    | some d => body ++ "\n\n" ++ d
    | none => body
  body

/-- Rust `str::lines`: each `\n` is a terminator (a trailing final empty piece
is dropped), and a trailing `\r` is stripped from each line. -/
def rust_lines (s : String) : List String :=
  if s = "" then []
  else
    let parts := s.splitOn "\n"
    let parts := if parts.getLast? = some "" then parts.dropLast else parts
    parts.map fun l => if l.endsWith "\r" then l.dropRight 1 else l

/-- Embedding of `render_function_parameters` from `src/starlark/src/docs/markdown.rs`:
builds the bulleted parameter list, skipping parameters without docs; returns
`none` when no parameter carries docs. -/
def render_function_parameters (params : List (String × DocParam)) : Option String :=
  params.foldl
    (fun param_list np =>
      match np with
      | (name, p) =>
        match p.docs with
        | none => param_list
        | some _ =>
          let acc := param_list.getD ""
          let docs := (render_doc_string DSOpts.Combined p.docs).getD ""
          match rust_lines docs with
          | [] => some (acc ++ "* `" ++ name ++ "`\n")
          | first_line :: rest =>
            some (acc ++ "* `" ++ name ++ "`: " ++ first_line ++ "\n" ++
              String.join (rest.map fun line => "  " ++ line ++ "\n")))
    none

/-- Constant `MAX_ARGS_BEFORE_MULTILINE` from the source: "Any functions with more
parameters than this will have their prototype split over multiple lines." -/
def MAX_ARGS_BEFORE_MULTILINE : Nat := 3

/-- Constant `MAX_LENGTH_BEFORE_MULTILINE` from the source: prototypes longer than
this are split anyway. -/
def MAX_LENGTH_BEFORE_MULTILINE : Nat := 80

/-- Embedding of `raw_type_prefix` from `src/starlark/src/docs/markdown.rs`: empty for the
unconstrained type, otherwise the given marker followed by the type text. -/
def raw_type_prefix (pfx : String) (t : Ty) : String :=
  if Ty.is_any t then "" else pfx ++ Ty.display t

/-- The single-line prototype `format!("{}({}){}", prefix, one_line_params, ret_type)`
built by `render_function_prototype`. -/
def prototype_single_line (function_name : String) (f : DocFunction) : String :=
  "def " ++ function_name ++ "(" ++ render_code f.params none ++ ")" ++
    raw_type_prefix " -> " f.ret.typ

/-- The multi-line prototype `format!("{}(\n{}){}", prefix, chunked_params, ret_type)`
built by `render_function_prototype`. -/
def prototype_multi_line (function_name : String) (f : DocFunction) : String :=
  "def " ++ function_name ++ "(\n" ++ render_code f.params (some "    ") ++ ")" ++
    raw_type_prefix " -> " f.ret.typ

/-- Embedding of `render_function_prototype` from `src/starlark/src/docs/markdown.rs`:
switches to the multi-line form when `doc_params().count()` exceeds
`MAX_ARGS_BEFORE_MULTILINE` or the single-line byte length exceeds
`MAX_LENGTH_BEFORE_MULTILINE`. -/
def render_function_prototype (function_name : String) (f : DocFunction) : String :=
  if (doc_params f.params).length > MAX_ARGS_BEFORE_MULTILINE
      ∨ String.utf8ByteSize (prototype_single_line function_name f) > MAX_LENGTH_BEFORE_MULTILINE
  then prototype_multi_line function_name f
  else prototype_single_line function_name f

/-- The body built by `render_function` up to (and excluding) the Details
step: header, then optional Summary, Parameters and Returns blocks. -/
def render_function_before_details (name : String) (function : DocFunction)
    (include_header : Bool) : String :=
  let prototype := render_code_block (render_function_prototype name function)
  let header :=
    if include_header then "## " ++ escape_name name ++ "\n\n" ++ prototype
    else prototype
  let summary := render_doc_string DSOpts.Summary function.docs
  let parameter_docs := render_function_parameters (doc_params_with_starred_names function.params)
  let return_docs := render_doc_string DSOpts.Combined function.ret.docs
  let body := header
  let body :=
    match summary with
    | some s => body ++ "\n\n" ++ s
    | none => body
  let body :=
    match parameter_docs with
    | some p => body ++ "\n\n#### Parameters\n\n" ++ p
    | none => body
  let body :=
    match return_docs with
    | some r => body ++ "\n\n#### Returns\n\n" ++ r
    | none => body
  body

/-- Embedding of `render_function` from `src/starlark/src/docs/markdown.rs`. -/
def render_function (name : String) (function : DocFunction) (include_header : Bool) : String :=
  let body := render_function_before_details name function include_header
  let parameter_docs := render_function_parameters (doc_params_with_starred_names function.params)
  let return_docs := render_doc_string DSOpts.Combined function.ret.docs
  let details := render_doc_string DSOpts.Details function.docs
  match details with
  | some d =>
    if parameter_docs.isSome || return_docs.isSome
    then body ++ "\n\n#### Details\n\n" ++ d
    else body ++ "\n\n" ++ d
  | none => body

/-- Embedding of `render_doc_member` from `src/starlark/src/docs/markdown.rs`. -/
def render_doc_member (name : String) (item : DocMember) : String :=
  match item with
  | DocMember.function f => render_function name f true
  | DocMember.property p => render_property name p

/-- The comparison used to sort members: lexicographic order on the member
name (Rust `l_m.cmp(r_m)`). -/
def members_le (a b : String × DocMember) : Prop := a.1 ≤ b.1

instance : DecidableRel members_le :=
  fun a b => inferInstanceAs (Decidable (a.1 ≤ b.1))

instance : IsTotal (String × DocMember) members_le :=
  ⟨fun a b => le_total a.1 b.1⟩

instance : IsTrans (String × DocMember) members_le :=
  ⟨fun _ _ _ h1 h2 => le_trans h1 h2⟩

/-- The stable sort by member name performed by
`members.into_iter().sorted_by(|(l_m, _), (r_m, _)| l_m.cmp(r_m))`
(a stable sort; insertion sort is stable, so it computes the same list). -/
def sort_members (members : List (String × DocMember)) : List (String × DocMember) :=
  List.insertionSort members_le members

/-- Embedding of `render_members` from `src/starlark/src/docs/markdown.rs`. -/
def render_members (name : String) (docs : Option DocString) (pfx : String)
    (members : List (String × DocMember)) (after_summary : Option String) : String :=
  let summary := ((render_doc_string DSOpts.Combined docs).map fun s => "\n\n" ++ s).getD ""
  let member_details :=
    (sort_members members).map fun cm => render_doc_member (pfx ++ cm.1) cm.2
  let member_details := after_summary.toList ++ member_details
  let members_details := String.intercalate "\n\n---\n\n" member_details
  "# " ++ name ++ summary ++ "\n\n" ++ members_details

/-- Embedding of `render_doc_type` from `src/starlark/src/docs/markdown.rs`. -/
def render_doc_type (name : String) (pfx : String) (t : DocType) : String :=
  let c := t.ctor.map fun c => render_function name c false
  render_members name t.docs pfx t.members c

/-- Embedding of `render_doc_param` from `src/starlark/src/docs/markdown.rs`. -/
def render_doc_param (starred : String) (item : DocParam) : String :=
  (render_function_parameters [(starred, item)]).getD ""

/-- Whether `needle` occurs at the start of `hay` (character lists). -/
def starts_with_chars : List Char → List Char → Bool
  | [], _ => true
  | _ :: _, [] => false
  | a :: rest1, b :: rest2 => a == b && starts_with_chars rest1 rest2

/-- Whether `needle` occurs anywhere inside `hay` (character lists). -/
def has_sub_chars (needle : List Char) : List Char → Bool
  | [] => starts_with_chars needle []
  | c :: rest => starts_with_chars needle (c :: rest) || has_sub_chars needle rest

/-- The number of parameters carrying attached documentation (this is the
spec wording for the multi-line threshold; compare with `doc_params`, which
iterates all parameters). -/
def documented_param_count (ps : List DocParam) : Nat :=
  (ps.filter fun p => p.docs.isSome).length

/-- A function with four parameters, none documented, unconstrained return
type and no docs. -/
def fourParamFn : DocFunction :=
  { params := [
      { name := "a", kind := ParamKind.posOrNamed, docs := none, typ := Ty.anyTy },
      { name := "b", kind := ParamKind.posOrNamed, docs := none, typ := Ty.anyTy },
      { name := "c", kind := ParamKind.posOrNamed, docs := none, typ := Ty.anyTy },
      { name := "d", kind := ParamKind.posOrNamed, docs := none, typ := Ty.anyTy } ],
    ret := { docs := none, typ := Ty.anyTy },
    docs := none }

/-- C1 counterexample: a function with 4 total parameters of which 0 are
documented and whose single-line rendering is 17 ≤ 80 bytes long is NOT
rendered on a single line: the prototype switches to the multi-line form, so
the threshold counts all parameters, not only documented ones. -/
theorem c1_counterexample :
    documented_param_count fourParamFn.params = 0 ∧
    String.utf8ByteSize (prototype_single_line "f" fourParamFn) ≤ 80 ∧
    render_function_prototype "f" fourParamFn ≠ prototype_single_line "f" fourParamFn ∧
    render_function_prototype "f" fourParamFn = "def f(\n    a,\n    b,\n    c,\n    d,\n)" := by
  decide

/-- C1 (amended): the prototype is rendered in multi-line form exactly when
the TOTAL number of parameters exceeds 3 or the single-line rendering byte
length exceeds 80; otherwise the single-line form is returned. -/
theorem c1_multiline_policy (name : String) (f : DocFunction) :
    render_function_prototype name f =
      if f.params.length > MAX_ARGS_BEFORE_MULTILINE
          ∨ String.utf8ByteSize (prototype_single_line name f) > MAX_LENGTH_BEFORE_MULTILINE
      then prototype_multi_line name f
      else prototype_single_line name f := rfl

/-- C2: a function with 4 parameters, none documented, unconstrained return
type and no docs renders as the header plus the multi-line prototype code
block and nothing else: no `####` section (Parameters, Returns or Details)
occurs in the output. -/
theorem c2_four_undocumented_params :
    render_function "f" fourParamFn true =
      "## f\n\n```python\ndef f(\n    a,\n    b,\n    c,\n    d,\n)\n```" ∧
    has_sub_chars "####".data (render_function "f" fourParamFn true).data = false := by
  decide

/-- Helper: `dedupFirstAux` yields a list without duplicates, none of whose
elements lie in `seen`. -/
theorem dedupFirstAux_nodup {α : Type} [DecidableEq α] (seen : List α) (l : List α) :
    (dedupFirstAux seen l).Nodup ∧ ∀ a ∈ dedupFirstAux seen l, a ∉ seen := by
  induction l generalizing seen with
  | nil => simp [dedupFirstAux]
  | cons a rest ih =>
    by_cases h : a ∈ seen
    · simpa [dedupFirstAux, h] using ih seen
    · obtain ⟨hn, hs⟩ := ih (seen ++ [a])
      have ha : a ∉ dedupFirstAux (seen ++ [a]) rest := by
        intro hmem
        exact hs a hmem (by simp)
      refine ⟨?_, ?_⟩
      · simpa [dedupFirstAux, h, List.nodup_cons] using ⟨ha, hn⟩
      · intro b hb
        simp only [dedupFirstAux, h, if_false, List.mem_cons] at hb
        rcases hb with rfl | hb
        · exact h
        · have := hs b hb
          simp only [List.mem_append, List.mem_singleton] at this
          exact fun hbseen => this (Or.inl hbseen)

/-- The union used in the C4 example: one sequence-like(int) variant and one
mapping-like(str, bool) variant. -/
def shapeUnionExample : Ty :=
  [TyBasic.tuple [TyBasic.name "int"], TyBasic.dict [TyBasic.name "str"] [TyBasic.name "bool"]]

/-- C4: the sequence-item projection maps sequence-like variants to their
element types and everything else to the unconstrained type, the
mapping-value projection maps mapping-like variants to their value types and
everything else to the unconstrained type, each result is a deduplicated
(order-stable, first occurrence kept) union of the per-variant contributions,
and on the example union the projections yield {int, unconstrained} and
{unconstrained, bool} respectively. -/
theorem c4_shape_extractor :
    (∀ ty : Ty, unpack_args_item_ty ty =
      Ty.unions (ty.map fun b =>
        match b with
        | TyBasic.tuple item => item
        | _ => Ty.anyTy)) ∧
    (∀ ty : Ty, unpack_kwargs_value_ty ty =
      Ty.unions (ty.map fun b =>
        match b with
        | TyBasic.dict _ value => value
        | _ => Ty.anyTy)) ∧
    (∀ ty : Ty, List.Nodup (unpack_args_item_ty ty) ∧ List.Nodup (unpack_kwargs_value_ty ty)) ∧
    unpack_args_item_ty shapeUnionExample = [TyBasic.name "int", TyBasic.any] ∧
    unpack_kwargs_value_ty shapeUnionExample = [TyBasic.any, TyBasic.name "bool"] ∧
    unpack_args_item_ty [TyBasic.tuple [TyBasic.name "int"], TyBasic.tuple [TyBasic.name "int"]] =
      [TyBasic.name "int"] := by
  refine ⟨fun ty => rfl, fun ty => rfl, fun ty => ⟨?_, ?_⟩, by decide, by decide, by decide⟩
  · exact (dedupFirstAux_nodup [] _).1
  · exact (dedupFirstAux_nodup [] _).1

/-- C8: Combined-mode selection returns summary, blank line and details when
details are present, the summary alone when details are absent, and nothing
for an absent block. -/
theorem c8_combined_mode :
    (∀ s d : String,
      render_doc_string DSOpts.Combined (some { summary := s, details := some d }) =
        some (s ++ "\n\n" ++ d)) ∧
    (∀ s : String,
      render_doc_string DSOpts.Combined (some { summary := s, details := none }) = some s) ∧
    render_doc_string DSOpts.Combined none = none :=
  ⟨fun _ _ => rfl, fun _ => rfl, rfl⟩

/-- C10: a parameter without docs renders to the empty string through
`render_doc_param`. -/
theorem c10_undocumented_param (starred : String) (p : DocParam) (h : p.docs = none) :
    render_doc_param starred p = "" := by
  simp [render_doc_param, render_function_parameters, h]

/-- C10 witness: a concrete undocumented parameter renders to `""`. -/
theorem c10_witness :
    render_doc_param "x"
      { name := "x", kind := ParamKind.posOrNamed, docs := none, typ := Ty.anyTy } = "" :=
  c10_undocumented_param "x" _ rfl

/-- C6: when Details prose is present, it is appended after
`"\n\n#### Details\n\n"` if a Parameters or Returns section was emitted, and
after a bare blank line otherwise. -/
theorem c6_details_placement (name : String) (f : DocFunction) (inc : Bool)
    (ds : DocString) (dd : String) (h1 : f.docs = some ds) (h2 : ds.details = some dd) :
    render_function name f inc =
      render_function_before_details name f inc ++
        (if (render_function_parameters (doc_params_with_starred_names f.params)).isSome
            || (render_doc_string DSOpts.Combined f.ret.docs).isSome
         then "\n\n#### Details\n\n" ++ dd
         else "\n\n" ++ dd) := by
  have hd : render_doc_string DSOpts.Details f.docs = some dd := by
    rw [h1]
    simp [render_doc_string, h2]
  simp only [render_function, hd]
  split <;> rw [String.append_assoc]

/-- A function whose docs have both a summary and details, with no parameter
docs and no return docs. -/
def detailsOnlyFn : DocFunction :=
  { params := [],
    ret := { docs := none, typ := Ty.anyTy },
    docs := some { summary := "s", details := some "d" } }

/-- C6 witness: the placement equation instantiated at `detailsOnlyFn`. -/
theorem c6_witness :
    render_function "f" detailsOnlyFn true =
      render_function_before_details "f" detailsOnlyFn true ++
        (if (render_function_parameters (doc_params_with_starred_names detailsOnlyFn.params)).isSome
            || (render_doc_string DSOpts.Combined detailsOnlyFn.ret.docs).isSome
         then "\n\n#### Details\n\n" ++ "d"
         else "\n\n" ++ "d") :=
  c6_details_placement "f" detailsOnlyFn true _ "d" rfl rfl

/-- C7: a property renders as the `## ` header with the escaped name, a blank
line, the code block over the unescaped `name: type` text, then a blank line
plus the summary if docs are present, then a blank line plus the details if
they are present; the `max_size` example renders exactly as specified. -/
theorem c7_property_rendering :
    (∀ (name : String) (p : DocProperty),
      render_property name p =
        "## " ++ escape_name name ++ "\n\n" ++
          render_code_block (name ++ ": " ++ Ty.display p.typ) ++
          (match p.docs with
           | some d =>
             "\n\n" ++ d.summary ++
               (match d.details with
                | some dd => "\n\n" ++ dd
                | none => "")
           | none => "")) ∧
    render_property "max_size"
        { docs := some { summary := "Maximum size.", details := none },
          typ := [TyBasic.name "int"] } =
      "## max\\_size\n\n```python\nmax_size: int\n```\n\nMaximum size." := by
  constructor
  · intro name p
    rcases p with ⟨docs, typ⟩
    rcases docs with _ | ⟨s, dd⟩
    · simp [render_property, render_doc_string, String.append_assoc]
    · rcases dd with _ | d <;>
        simp [render_property, render_doc_string, String.append_assoc]
  · decide

/-- C9: the rendered prototype is some core ending in `)` followed by the
return suffix, and the return suffix is `" -> " ++ typeText` exactly when the
return type is constrained and empty when it is unconstrained. -/
theorem c9_return_suffix (name : String) (f : DocFunction) :
    (∃ core, render_function_prototype name f =
      core ++ ")" ++ raw_type_prefix " -> " f.ret.typ) ∧
    raw_type_prefix " -> " f.ret.typ =
      (if Ty.is_any f.ret.typ then "" else " -> " ++ Ty.display f.ret.typ) := by
  refine ⟨?_, rfl⟩
  unfold render_function_prototype
  split
  · exact ⟨"def " ++ name ++ "(\n" ++ render_code f.params (some "    "),
      by simp [prototype_multi_line, String.append_assoc]⟩
  · exact ⟨"def " ++ name ++ "(" ++ render_code f.params none,
      by simp [prototype_single_line, String.append_assoc]⟩

/-- The character expansion performed by `escape_name`: each underscore
becomes a backslash followed by an underscore. -/
def esc_chars (l : List Char) : List Char :=
  l.flatMap fun c => if c = '_' then ['\\', '_'] else [c]

/-- The number of two-character escape sequences (backslash underscore) in a
character list, scanned left to right. -/
def esc_seq_count : List Char → Nat
  | [] => 0
  | [_] => 0
  | a :: b :: rest =>
    if a = '\\' ∧ b = '_' then esc_seq_count rest + 1 else esc_seq_count (b :: rest)

/-- The number of bare underscores (underscores not preceded by a backslash)
in a character list, scanned left to right. -/
def bare_underscore_count : List Char → Nat
  | [] => 0
  | [a] => if a = '_' then 1 else 0
  | a :: b :: rest =>
    if a = '\\' ∧ b = '_' then bare_underscore_count rest
    else (if a = '_' then 1 else 0) + bare_underscore_count (b :: rest)

/-- Predicate: `t` is a literal prefix of `s`. -/
def str_has_pfx (t s : String) : Prop := ∃ r, s = t ++ r

theorem str_has_pfx_append2 (a b r : String) : str_has_pfx (a ++ b) (a ++ (b ++ r)) :=
  ⟨r, by simp [String.append_assoc]⟩

theorem str_has_pfx_refl (t : String) : str_has_pfx t t :=
  ⟨"", (String.append_empty t).symm⟩

theorem str_has_pfx_append4 (a b c d r : String) :
    str_has_pfx (a ++ (b ++ (c ++ d))) (a ++ (b ++ (c ++ (d ++ r)))) :=
  ⟨r, by simp [String.append_assoc]⟩

theorem esc_chars_head_ne (l : List Char) : (esc_chars l).head? ≠ some '_' := by
  cases l with
  | nil => simp [esc_chars]
  | cons c rest =>
    by_cases hc : c = '_'
    · simp only [esc_chars, List.flatMap_cons, hc, if_pos rfl]
      intro h
      simp at h
    · simp only [esc_chars, List.flatMap_cons, if_neg hc]
      intro h
      simp at h
      exact hc h

theorem esc_seq_count_esc_chars (l : List Char) :
    esc_seq_count (esc_chars l) = l.count '_' := by
  induction l with
  | nil => simp [esc_chars, esc_seq_count]
  | cons c rest ih =>
    by_cases hc : c = '_'
    · subst hc
      have h1 : esc_chars ('_' :: rest) = '\\' :: '_' :: esc_chars rest := by
        simp [esc_chars]
      rw [h1, esc_seq_count, if_pos ⟨rfl, rfl⟩, ih]
      simp [List.count_cons]
    · have h1 : esc_chars (c :: rest) = c :: esc_chars rest := by
        simp [esc_chars, hc]
      rw [h1]
      have h2 : esc_seq_count (c :: esc_chars rest) = esc_seq_count (esc_chars rest) := by
        cases hE : esc_chars rest with
        | nil => simp [esc_seq_count]
        | cons b E2 =>
          have hb : b ≠ '_' := by
            have h3 := esc_chars_head_ne rest
            rw [hE] at h3
            simpa using h3
          rw [esc_seq_count, if_neg (by rintro ⟨-, rfl⟩; exact hb rfl)]
      rw [h2, ih]
      simp [List.count_cons, hc]

theorem bare_underscore_count_esc_chars (l : List Char) :
    bare_underscore_count (esc_chars l) = 0 := by
  induction l with
  | nil => simp [esc_chars, bare_underscore_count]
  | cons c rest ih =>
    by_cases hc : c = '_'
    · subst hc
      have h1 : esc_chars ('_' :: rest) = '\\' :: '_' :: esc_chars rest := by
        simp [esc_chars]
      rw [h1, bare_underscore_count, if_pos ⟨rfl, rfl⟩, ih]
    · have h1 : esc_chars (c :: rest) = c :: esc_chars rest := by
        simp [esc_chars, hc]
      rw [h1]
      cases hE : esc_chars rest with
      | nil => simp [bare_underscore_count, hc]
      | cons b E2 =>
        have hb : b ≠ '_' := by
          have h3 := esc_chars_head_ne rest
          rw [hE] at h3
          simpa using h3
        rw [bare_underscore_count, if_neg (by rintro ⟨-, rfl⟩; exact hb rfl)]
        rw [← hE, ih]
        simp [hc]

/-- C3 counterexample: the `# `-prefixed member-container header does NOT
escape underscores: rendering an empty container named `my_mod` yields
`# my_mod` with one bare underscore and no escape sequence, contradicting the
claim that every name outside a code block is escaped. -/
theorem c3_counterexample :
    render_members "my_mod" none "" [] none = "# my_mod\n\n" ∧
    bare_underscore_count (render_members "my_mod" none "" [] none).data = 1 ∧
    esc_seq_count (render_members "my_mod" none "" [] none).data = 0 := by
  decide

/-- C3 (amended): `escape_name` turns each of the `k` underscores of a name
into an escape sequence (`k` escape sequences, zero bare underscores remain),
and it is applied to the `## `-prefixed header names of properties and
functions; names inside code blocks are never escaped: the property code
block receives the raw `name: type` text and the function code block
receives the prototype, which starts with `def ` plus the raw name; the
`# `-prefixed member-container header, however, uses the raw unescaped
name. -/
theorem c3_escape_rule :
    (∀ name : String,
      esc_seq_count (escape_name name).data = name.data.count '_' ∧
      bare_underscore_count (escape_name name).data = 0) ∧
    (∀ (name : String) (p : DocProperty),
      str_has_pfx
        ("## " ++ escape_name name ++ "\n\n" ++
          render_code_block (name ++ ": " ++ Ty.display p.typ))
        (render_property name p)) ∧
    (∀ (name : String) (f : DocFunction),
      str_has_pfx
        ("## " ++ escape_name name ++ "\n\n" ++
          render_code_block (render_function_prototype name f))
        (render_function name f true)) ∧
    (∀ (name : String) (f : DocFunction), ∃ r,
      render_function_prototype name f = "def " ++ name ++ r) ∧
    (∀ (name : String) (docs : Option DocString) (pfx : String)
        (members : List (String × DocMember)) (after_summary : Option String),
      str_has_pfx ("# " ++ name) (render_members name docs pfx members after_summary)) := by
  refine ⟨?_, ?_, ?_, ?_, ?_⟩
  · intro name
    exact ⟨esc_seq_count_esc_chars name.data, bare_underscore_count_esc_chars name.data⟩
  · intro name p
    rcases p with ⟨docs, typ⟩
    rcases docs with _ | ⟨s, dd⟩
    · simp [render_property, render_doc_string, String.append_assoc]
      exact str_has_pfx_refl _
    · rcases dd with _ | d <;>
        simp [render_property, render_doc_string, String.append_assoc] <;>
        exact str_has_pfx_append4 _ _ _ _ _
  · intro name f
    rcases hdet : render_doc_string DSOpts.Details f.docs with _ | d <;>
    rcases hs : render_doc_string DSOpts.Summary f.docs with _ | s <;>
    rcases hp : render_function_parameters (doc_params_with_starred_names f.params) with _ | pd <;>
    rcases hr : render_doc_string DSOpts.Combined f.ret.docs with _ | rd <;>
      simp [render_function, render_function_before_details, hdet, hs, hp, hr,
        String.append_assoc] <;>
      first
      | exact str_has_pfx_append4 _ _ _ _ _
      | exact str_has_pfx_refl _
  · intro name f
    unfold render_function_prototype
    split
    · exact ⟨"(\n" ++ render_code f.params (some "    ") ++ ")" ++
        raw_type_prefix " -> " f.ret.typ,
        by simp [prototype_multi_line, String.append_assoc]⟩
    · exact ⟨"(" ++ render_code f.params none ++ ")" ++ raw_type_prefix " -> " f.ret.typ,
        by simp [prototype_single_line, String.append_assoc]⟩
  · intro name docs pfx members after_summary
    simp only [render_members, String.append_assoc]
    exact str_has_pfx_append2 _ _ _


/-- C5: rendered member blocks are sorted by member name (lexicographic
codepoint order) regardless of the order in which members were supplied, and
the output is the header plus the optional constructor block and the sorted
member blocks joined by the horizontal-rule separator. -/
theorem c5_member_ordering (name : String) (docs : Option DocString) (pfx : String)
    (after_summary : Option String) (l₁ l₂ : List (String × DocMember))
    (hperm : l₁.Perm l₂) (hnd : (l₁.map Prod.fst).Nodup) :
    render_members name docs pfx l₁ after_summary =
      render_members name docs pfx l₂ after_summary ∧
    List.Sorted (fun a b : String => a ≤ b) ((sort_members l₁).map Prod.fst) ∧
    render_members name docs pfx l₁ after_summary =
      "# " ++ name ++
        (((render_doc_string DSOpts.Combined docs).map fun s => "\n\n" ++ s).getD "") ++
        "\n\n" ++ String.intercalate "\n\n---\n\n"
          (after_summary.toList ++
            (sort_members l₁).map fun cm => render_doc_member (pfx ++ cm.1) cm.2) := by
  have hp1 : List.Perm (List.insertionSort members_le l₁) l₁ := List.perm_insertionSort _ _
  have hp2 : List.Perm (List.insertionSort members_le l₂) l₂ := List.perm_insertionSort _ _
  have hsort_eq : sort_members l₁ = sort_members l₂ := by
    have hp : List.Perm (sort_members l₁) (sort_members l₂) := hp1.trans (hperm.trans hp2.symm)
    have hs1 : List.Sorted members_le (sort_members l₁) := List.sorted_insertionSort _ _
    have hs2 : List.Sorted members_le (sort_members l₂) := List.sorted_insertionSort _ _
    have hnd2 : (l₂.map Prod.fst).Nodup := ((hperm.map Prod.fst).nodup_iff).mp hnd
    have hne1 : List.Pairwise (fun a b : String × DocMember => a.1 ≠ b.1) l₁ := by
      rw [← List.pairwise_map]
      exact hnd
    have hne2 : List.Pairwise (fun a b : String × DocMember => a.1 ≠ b.1) l₂ := by
      rw [← List.pairwise_map]
      exact hnd2
    have hne1s : List.Pairwise (fun a b : String × DocMember => a.1 ≠ b.1) (sort_members l₁) :=
      (hp1.pairwise_iff fun h he => h he.symm).mpr hne1
    have hne2s : List.Pairwise (fun a b : String × DocMember => a.1 ≠ b.1) (sort_members l₂) :=
      (hp2.pairwise_iff fun h he => h he.symm).mpr hne2
    have hlt1 : List.Pairwise (fun a b : String × DocMember => a.1 < b.1) (sort_members l₁) :=
      (hs1.and hne1s).imp fun h => lt_of_le_of_ne h.1 h.2
    have hlt2 : List.Pairwise (fun a b : String × DocMember => a.1 < b.1) (sort_members l₂) :=
      (hs2.and hne2s).imp fun h => lt_of_le_of_ne h.1 h.2
    haveI : IsAntisymm (String × DocMember) (fun a b => a.1 < b.1) :=
      ⟨fun _ _ h1 h2 => absurd h2 (lt_asymm h1)⟩
    exact List.eq_of_perm_of_sorted hp hlt1 hlt2
  refine ⟨?_, ?_, rfl⟩
  · simp only [render_members, hsort_eq]
  · have hs1 : List.Sorted members_le (sort_members l₁) := List.sorted_insertionSort _ _
    exact List.pairwise_map.mpr (hs1.imp fun h => h)

/-- Two property members used by the C5 witness. -/
def memA : DocMember := DocMember.property { docs := none, typ := Ty.anyTy }

def memB : DocMember := DocMember.property { docs := none, typ := [TyBasic.name "int"] }

def c5L1 : List (String × DocMember) := [("b", memB), ("a", memA)]

def c5L2 : List (String × DocMember) := [("a", memA), ("b", memB)]

/-- C5 witness: the ordering equation instantiated at a two-element container
supplied in reverse order. -/
theorem c5_witness :
    render_members "m" none "" c5L1 none = render_members "m" none "" c5L2 none ∧
    List.Sorted (fun a b : String => a ≤ b) ((sort_members c5L1).map Prod.fst) ∧
    render_members "m" none "" c5L1 none =
      "# " ++ "m" ++
        (((render_doc_string DSOpts.Combined none).map fun s => "\n\n" ++ s).getD "") ++
        "\n\n" ++ String.intercalate "\n\n---\n\n"
          (Option.toList none ++
            (sort_members c5L1).map fun cm => render_doc_member ("" ++ cm.1) cm.2) :=
  c5_member_ordering "m" none "" none c5L1 c5L2
    (List.Perm.swap ("a", memA) ("b", memB) []) (by decide)
